import Mathlib

/-!
Verification development for the ZW transformer: the indentation-based ZW
format parser (`parseZW` in `src/zwtransformer/index.tsx`) and the JSON→ZW
serializer (`convertJsonToZwString` and its helpers, embedded in
`src/README.md`).

Modelling conventions:
- JavaScript strings are modelled as Lean `String` (sequences of characters);
  UTF-16 code-unit indexing coincides with character indexing on the inputs of
  interest (no astral-plane characters).
- JavaScript numbers are modelled exactly as scaled decimals `mant / 10^exp10`
  (`DecNum`).  Every number the code manipulates here (indentation depths
  `max(1, indent/2)`, parsed JSON decimal literals) is such a decimal;
  binary64 rounding of long literals is not modelled.
- Regular-expression matching in the source is compiled to explicit string
  scanning functions reproducing the JavaScript engine's greedy/backtracking
  match and capture behaviour, documented at each definition.
-/

/-- Characters matched by JavaScript `\s` (and removed by `String.trim`). -/
def jsWhitespace (c : Char) : Bool :=
  c = ' ' || c = '\t' || c = '\n' || c = '\r' || c.toNat = 0xb || c.toNat = 0xc ||
  c.toNat = 0xA0 || c.toNat = 0xFEFF || c.toNat = 0x1680 ||
  (0x2000 <= c.toNat && c.toNat <= 0x200A) ||
  c.toNat = 0x2028 || c.toNat = 0x2029 || c.toNat = 0x202F ||
  c.toNat = 0x205F || c.toNat = 0x3000

/-- JavaScript line terminators: characters not matched by `.` in a regex. -/
def jsLineTerminator (c : Char) : Bool :=
  c = '\n' || c = '\r' || c.toNat = 0x2028 || c.toNat = 0x2029

/-- Drop `jsWhitespace` characters from both ends of a character list. -/
def trimChars (l : List Char) : List Char :=
  ((l.dropWhile jsWhitespace).reverse.dropWhile jsWhitespace).reverse

/-- JavaScript `String.prototype.trim`. -/
def jsTrim (s : String) : String := ⟨trimChars s.data⟩

/-- Split a character list at newline characters, JavaScript `split('\n')`. -/
def splitLinesAux : List Char → List Char → List (List Char)
  | [], acc => [acc.reverse]
  | c :: rest, acc =>
    if c = '\n' then acc.reverse :: splitLinesAux rest []
    else splitLinesAux rest (c :: acc)

/-- JavaScript `s.split('\n')`. -/
def splitLines (s : String) : List String :=
  (splitLinesAux s.data []).map (fun l => ⟨l⟩)

/-- Check that the first list is an initial segment of the second. -/
def listStarts : List Char → List Char → Bool
  | [], _ => true
  | _ :: _, [] => false
  | p :: ps, c :: cs => p = c && listStarts ps cs

/-- JavaScript `s.startsWith(pre)`. -/
def strStarts (s pre : String) : Bool := listStarts pre.data s.data

/-- JavaScript `s.endsWith(suf)`. -/
def strEnds (s suf : String) : Bool := listStarts suf.data.reverse s.data.reverse

/-- JavaScript `s.substring(n)` (drop the first `n` characters). -/
def strDrop (s : String) (n : Nat) : String := ⟨s.data.drop n⟩

/-- JavaScript `s.substring(0, n)` (keep the first `n` characters). -/
def strTake (s : String) (n : Nat) : String := ⟨s.data.take n⟩

/-- Number of characters of a string. -/
def strLen (s : String) : Nat := s.data.length

/-- Whether a string contains a given character. -/
def strHasChar (s : String) (c : Char) : Bool := s.data.any (fun x => x = c)

/-- A run of `n` spaces, JavaScript `' '.repeat(n)`. -/
def spaces (n : Nat) : String := ⟨List.replicate n ' '⟩

/-- ASCII lower-casing, modelling `toLowerCase` on the inputs of interest. -/
def asciiLowerChar (c : Char) : Char :=
  if 65 ≤ c.toNat && c.toNat ≤ 90 then Char.ofNat (c.toNat + 32) else c

/-- JavaScript `s.toLowerCase()` (ASCII fragment). -/
def asciiLower (s : String) : String := ⟨s.data.map asciiLowerChar⟩

/-- Replace every double quote by a backslash-quote pair, modelling
`value.replace(/"/g, '\\"')`. -/
def escapeQuotesChars : List Char → List Char
  | [] => []
  | c :: rest =>
    if c = '"' then '\\' :: '"' :: escapeQuotesChars rest
    else c :: escapeQuotesChars rest

/-- JavaScript `value.replace(/"/g, '\\"')`. -/
def escapeQuotes (s : String) : String := ⟨escapeQuotesChars s.data⟩

/-- Join strings with a separator, JavaScript `Array.prototype.join`. -/
def joinWith (sep : String) : List String → String
  | [] => ""
  | [l] => l
  | l :: rest => l ++ sep ++ joinWith sep rest

/-- Join with newlines, JavaScript `lines.join('\n')`. -/
def joinNl (lines : List String) : String := joinWith "\n" lines

/-- Powers of ten over `Nat` (kernel-accelerated). -/
def pow10 (n : Nat) : Nat := Nat.pow 10 n

/-- Powers of two over `Nat` (kernel-accelerated). -/
def pow2 (n : Nat) : Nat := Nat.pow 2 n

/-- Decimal digits of a positive number, most significant first. -/
def natDigitsAux : Nat → Nat → List Char
  | 0, _ => []
  | fuel + 1, n =>
    if n = 0 then []
    else natDigitsAux fuel (n / 10) ++ [Char.ofNat (48 + n % 10)]

/-- Canonical decimal rendering of a natural number. -/
def natToDecString (n : Nat) : String :=
  if n = 0 then "0" else ⟨natDigitsAux (n + 1) n⟩

/-- ASCII decimal digit test. -/
def isDigitChar (c : Char) : Bool := 48 ≤ c.toNat && c.toNat ≤ 57

/-- Numeric value of a digit list, most significant first. -/
def digitsToNat (l : List Char) : Nat :=
  l.foldl (fun a c => 10 * a + (c.toNat - 48)) 0

/-!  JavaScript numbers.

`DecNum` represents the exact value `mant / 10 ^ exp10`.  All JavaScript
numbers handled by the modelled code are such scaled decimals; the rounding a
JavaScript engine would apply to literals with more significant digits than
binary64 can hold is not modelled. -/

/-- An exact scaled decimal `mant / 10 ^ exp10`, modelling the JavaScript
numbers arising in this code. -/
structure DecNum where
  mant : Int
  exp10 : Nat
deriving DecidableEq

/-- Value order on scaled decimals (cross multiplication; denominators are
positive powers of ten). -/
def DecNum.le (a b : DecNum) : Prop :=
  a.mant * (pow10 b.exp10 : Int) ≤ b.mant * (pow10 a.exp10 : Int)

/-- Strict value order on scaled decimals. -/
def DecNum.lt (a b : DecNum) : Prop :=
  a.mant * (pow10 b.exp10 : Int) < b.mant * (pow10 a.exp10 : Int)

instance (a b : DecNum) : Decidable (DecNum.le a b) :=
  inferInstanceAs (Decidable (_ ≤ _))

instance (a b : DecNum) : Decidable (DecNum.lt a b) :=
  inferInstanceAs (Decidable (_ < _))

/-- The rational value of a scaled decimal (used only in theorem statements). -/
def DecNum.toRat (a : DecNum) : ℚ := (a.mant : ℚ) / (pow10 a.exp10 : ℚ)

/-- JavaScript `Math.max(a, b)` on (non-NaN) numbers. -/
def jsMax (a b : DecNum) : DecNum := if DecNum.le a b then b else a

/-- Exact halving of a natural number as a decimal (JavaScript `n / 2` is
exact binary64 division for the sizes occurring here). -/
def halfOfNat (n : Nat) : DecNum :=
  if n % 2 = 0 then ⟨(n / 2 : Nat), 0⟩ else ⟨(5 * n : Nat), 1⟩

/-!  The ZW tree data model (`ZWNode`, `ZWListItem` in the source).

`ZWNode.value` in TypeScript is `string | ZWNode[] | ZWListItem[]`; since the
parser can push both nodes and list items into the same children array, the
children are modelled as a list of `ZWEntry` (node or list item).  The
optional `parent` back-reference of the source is never read by the modelled
code and is omitted (spec §9 explicitly sanctions omitting it). -/

mutual

inductive ZWValue : Type where
  | str (s : String) : ZWValue
  | arr (entries : List ZWEntry) : ZWValue

inductive ZWEntry : Type where
  | node (n : ZWNode) : ZWEntry
  | item (it : ZWListItem) : ZWEntry

inductive ZWNode : Type where
  | mk (key : String) (value : ZWValue) (depth : DecNum)
       (delimiter : Option String) : ZWNode

inductive ZWListItem : Type where
  | mk (value : ZWItemValue) (isKeyValue : Bool) (itemKey : Option String)
       (depth : DecNum) (delimiter : Option String) : ZWListItem

inductive ZWItemValue : Type where
  | str (s : String) : ZWItemValue
  | nodes (ns : List ZWNode) : ZWItemValue

end

/-- The `key` field of a node. -/
def ZWNode.key : ZWNode → String
  | .mk k _ _ _ => k

/-- The `value` field of a node. -/
def ZWNode.value : ZWNode → ZWValue
  | .mk _ v _ _ => v

/-- The `depth` field of a node. -/
def ZWNode.depth : ZWNode → DecNum
  | .mk _ _ d _ => d

/-- The `delimiter` field of a node. -/
def ZWNode.delimiter : ZWNode → Option String
  | .mk _ _ _ d => d

/-- The `value` field of a list item. -/
def ZWListItem.value : ZWListItem → ZWItemValue
  | .mk v _ _ _ _ => v

/-- The `isKeyValue` field of a list item (`false` models `undefined`). -/
def ZWListItem.isKeyValue : ZWListItem → Bool
  | .mk _ b _ _ _ => b

/-- The `itemKey` field of a list item. -/
def ZWListItem.itemKey : ZWListItem → Option String
  | .mk _ _ k _ _ => k

/-- The `depth` field of a list item. -/
def ZWListItem.depth : ZWListItem → DecNum
  | .mk _ _ _ d _ => d

/-!  Line classification: the regular expressions of `parseZW`. -/

/-- Characters of the root-type character class `[A-Z0-9_-]` with the `i`
flag: ASCII letters of both cases, digits, underscore, hyphen. -/
def isRootKeyChar (c : Char) : Bool :=
  (65 ≤ c.toNat && c.toNat ≤ 90) || (97 ≤ c.toNat && c.toNat ≤ 122) ||
  (48 ≤ c.toNat && c.toNat ≤ 57) || c = '_' || c = '-'

/-- Characters of the child-key character class `[A-Za-z0-9_]` (note: no
hyphen, unlike the root class). -/
def isChildKeyChar (c : Char) : Bool :=
  (65 ≤ c.toNat && c.toNat ≤ 90) || (97 ≤ c.toNat && c.toNat ≤ 122) ||
  (48 ≤ c.toNat && c.toNat ≤ 57) || c = '_'

/-- Matcher for the root-line regex `/^([A-Z0-9_-]+(?:-[A-Z0-9_-]+)*):\s*$/i`:
the line must be a nonempty run of root-key characters, then a literal colon,
then only whitespace; the capture is the key run.  Since the colon is not a
key character, the greedy engine match succeeds exactly on the maximal run. -/
def rootLineMatch (line : String) : Option String :=
  let keyChars := line.data.takeWhile isRootKeyChar
  let rest := line.data.drop keyChars.length
  match rest with
  | ':' :: after =>
    if keyChars ≠ [] && after.all jsWhitespace then some ⟨keyChars⟩ else none
  | _ => none

/-- Greedy key split for the section regex
`^([A-Za-z0-9_]+)<delim>\s*$`: try key lengths from longest to shortest
(JavaScript backtracking order) and succeed when the delimiter follows the
key and only whitespace remains. -/
def sectionSplitAux (delim : String) (l : List Char) : Nat → Option String
  | 0 => none
  | n + 1 =>
    let key := l.take (n + 1)
    let rest := l.drop (n + 1)
    if key.all isChildKeyChar && listStarts delim.data rest &&
        (rest.drop delim.data.length).all jsWhitespace then
      some ⟨key⟩
    else sectionSplitAux delim l n

/-- Matcher for the section regex `^([A-Za-z0-9_]+)<delim>\s*$` applied to a
trimmed line. -/
def sectionSplit (delim : String) (line : String) : Option String :=
  sectionSplitAux delim line.data line.data.length

/-- Greedy key split for the key-value regex
`^([A-Za-z0-9_]+)<delim>\s*(.*)$`: the value capture is the remainder after
the greedy `\s*`; `.` does not match line terminators, so the remainder must
be free of them, otherwise the engine backtracks to a shorter key. -/
def kvSplitAux (delim : String) (l : List Char) : Nat → Option (String × String)
  | 0 => none
  | n + 1 =>
    let key := l.take (n + 1)
    let rest := l.drop (n + 1)
    if key.all isChildKeyChar && listStarts delim.data rest then
      let afterDelim := rest.drop delim.data.length
      let value := afterDelim.dropWhile jsWhitespace
      if value.all (fun c => ¬ jsLineTerminator c) then some (⟨key⟩, ⟨value⟩)
      else kvSplitAux delim l n
    else kvSplitAux delim l n

/-- Matcher for the key-value regex `^([A-Za-z0-9_]+)<delim>\s*(.*)$` applied
to a trimmed line; returns the key capture and the value capture. -/
def kvSplit (delim : String) (line : String) : Option (String × String) :=
  kvSplitAux delim line.data line.data.length

/-- Indentation of a line: `line.match(/^(\s*)/)` length. -/
def getIndentation (line : String) : Nat :=
  (line.data.takeWhile jsWhitespace).length

/-- Depth of a non-root line: `Math.max(1, currentIndent / 2)`.  JavaScript
`/` is exact (float) division, so an odd indentation yields a half-integral
depth. -/
def lineDepth (line : String) : DecNum :=
  jsMax ⟨1, 0⟩ (halfOfNat (getIndentation line))

/-!  Code-fence stripping.

`parseZW` first matches the trimmed input against
`/^```(?:[a-zA-Z0-9_-]+)?\s*\n?([\s\S]*?)\s*\n?```$/` and, when the capture is
nonempty, replaces the input by the trimmed capture.  For the first
(leftmost-greedy) engine match: the whole string must start and end with a
fence (disjoint, so length at least 6); the language tag is the maximal run of
tag characters after the opening fence; and the capture is the text strictly
between tag and closing fence with surrounding whitespace consumed by the
greedy `\s*` groups — that is, its `jsTrim`. -/

/-- Characters of the fence language tag class `[a-zA-Z0-9_-]`. -/
def isFenceTagChar (c : Char) : Bool := isRootKeyChar c

/-- Strip one enclosing markdown code fence, if the fence regex matches with a
nonempty capture. -/
def stripCodeFence (s : String) : String :=
  if strStarts s "```" && strEnds s "```" && 6 ≤ strLen s then
    let tag := (s.data.drop 3).takeWhile isFenceTagChar
    let inner := (s.data.drop (3 + tag.length)).take
      (strLen s - 3 - (3 + tag.length))
    let captured : String := ⟨trimChars inner⟩
    if captured ≠ "" then jsTrim captured else s
  else s

/-- The processed input of `parseZW`: trim, then strip one code fence. -/
def processedInput (s : String) : String := stripCodeFence (jsTrim s)

/-- Semantic lines: those whose trimmed form is nonempty and does not start
with a comment marker. -/
def semanticLinesOf (s : String) : List String :=
  (splitLines s).filter
    (fun line => jsTrim line ≠ "" && ¬ strStarts (jsTrim line) "#")

/-- The diagnostic value of the invalid-root error node. -/
def invalidRootMessage (rootLineContent : String) : String :=
  "Packet must start with a ZW Type declaration on its own line (e.g., ZW-REQUEST:). The first significant line found was: \"" ++
  strTake rootLineContent 70 ++
  (if 70 < strLen rootLineContent then "..." else "") ++
  "\". It did not match the expected format. Common issues: text after the colon on the root line, or missing root type."

/-!  The parsing loop.

The source mutates nodes held in an explicit stack; the model keeps a stack
of `Frame`s (key, depth, delimiter and children accumulated in reverse) and
attaches a completed frame to its parent when it is popped.  This is
observably identical: the source appends a section node to its parent at
creation time, but nothing can be appended to or read from that parent while
the section is still open above it.  The source's defensive
re-initialisations of `parentNode.value` (for `undefined` or string values)
are unreachable for stack nodes, which are always created with array values,
and have no counterpart here. -/

/-- An open node on the parser stack: its fields and its children so far,
most recent first. -/
structure Frame where
  key : String
  depth : DecNum
  delimiter : Option String
  children : List ZWEntry

/-- Append a completed entry to a frame's children. -/
def pushChild (f : Frame) (e : ZWEntry) : Frame :=
  { f with children := e :: f.children }

/-- Turn a closed frame into its node. -/
def materializeFrame (f : Frame) : ZWNode :=
  .mk f.key (.arr f.children.reverse) f.depth f.delimiter

/-- The stack-popping loop: `while (stack.length > 1) { if (depth >
top.depth) break; stack.pop(); }`.  The first argument is the top of the
stack, the second the frames below it. -/
def popStack (d : DecNum) (top : Frame) : List Frame → List Frame
  | [] => [top]
  | g :: rest =>
    if DecNum.lt top.depth d then top :: g :: rest
    else popStack d (pushChild g (.node (materializeFrame top))) rest

/-- Stack-popping on a whole stack (top first). -/
def popStackList (d : DecNum) : List Frame → List Frame
  | [] => []
  | f :: rest => popStack d f rest

/-- The continuation branch of the line loop: append a newline plus the
line's content (leading indentation removed, `line.substring(currentIndent)`)
to the scalar value of the most recently appended child or list item; leave
the children unchanged when there are none or the last one is not a scalar. -/
def appendContinuation (children : List ZWEntry) (line : String)
    (currentIndent : Nat) : List ZWEntry :=
  match children with
  | [] => []
  | lastChild :: earlier =>
    match lastChild with
    | .node (.mk k (.str s) d dl) =>
      ZWEntry.node (.mk k (.str (s ++ "\n" ++ strDrop line currentIndent)) d dl)
        :: earlier
    | .item (.mk (.str s) ikv ik d dl) =>
      ZWEntry.item (.mk (.str (s ++ "\n" ++ strDrop line currentIndent)) ikv ik d dl)
        :: earlier
    | _ => lastChild :: earlier

/-- Process one semantic line of the body: pop to the active parent, then
classify the line as list item, section opener, key-value pair, or
continuation, exactly in the source's order. -/
def processLine (eff : String) (st : List Frame) (line : String) : List Frame :=
  match st with
  | [] => []
  | f :: rest =>
    let trimmedLine := jsTrim line
    let currentIndent := getIndentation line
    let depth := lineDepth line
    match popStack depth f rest with
    | [] => []
    | parentNode :: stackRest =>
      if strStarts trimmedLine "- " then
        let itemContent := jsTrim (strDrop trimmedLine 2)
        let listItem : ZWListItem :=
          match kvSplit eff itemContent with
          | some kv => .mk (.str kv.2) true (some kv.1) depth (some eff)
          | none => .mk (.str itemContent) false none depth (some eff)
        pushChild parentNode (.item listItem) :: stackRest
      else
        match sectionSplit eff trimmedLine with
        | some key => ⟨key, depth, some eff, []⟩ :: parentNode :: stackRest
        | none =>
          match kvSplit eff trimmedLine with
          | some kv =>
            pushChild parentNode
              (.node (.mk kv.1 (.str kv.2) depth (some eff))) :: stackRest
          | none =>
            ⟨parentNode.key, parentNode.depth, parentNode.delimiter,
              appendContinuation parentNode.children line currentIndent⟩
              :: stackRest

/-- Fold the parser over the body lines. -/
def runLines (eff : String) (st : List Frame) (lines : List String) : List Frame :=
  lines.foldl (processLine eff) st

/-- Close every frame still open at the end of the input, yielding the root
node. -/
def closeAll (top : Frame) : List Frame → ZWNode
  | [] => materializeFrame top
  | g :: rest => closeAll (pushChild g (.node (materializeFrame top))) rest

/-- The effective delimiter, `options?.delimiter || ':'` (an absent or empty
delimiter falls back to the colon). -/
def effectiveDelimiterOf (optDelimiter : Option String) : String :=
  match optDelimiter with
  | some d => if d = "" then ":" else d
  | none => ":"

/-- The ZW parser, `parseZW(zwString, options?)`.  `optDelimiter` models
`options?.delimiter`; `none` models an absent options object or field.
Returns `none` for empty input ("no content") and an `Error: Invalid Root`
node when the first semantic line is not a bare root declaration. -/
def parseZW (zwString : String) (optDelimiter : Option String) : Option ZWNode :=
  let processed := processedInput zwString
  if processed = "" then none
  else
    match semanticLinesOf processed with
    | [] => none
    | rootLineContent :: restLines =>
      match rootLineMatch rootLineContent with
      | none =>
        some (.mk "Error: Invalid Root"
          (.str (invalidRootMessage rootLineContent)) ⟨0, 0⟩ none)
      | some rootKey =>
        let effectiveDelimiter := effectiveDelimiterOf optDelimiter
        let finalStack := runLines effectiveDelimiter
          [⟨rootKey, ⟨0, 0⟩, some effectiveDelimiter, []⟩] restLines
        match finalStack with
        | [] => none
        | top :: rest => some (closeAll top rest)

/-!  JSON values.

`Json` models the values `JSON.parse` can produce.  Object fields are kept in
the enumeration order `for..in` would use (canonical array-index keys in
ascending numeric order first, then remaining keys in insertion order), which
is fixed at parse time. -/

inductive Json : Type where
  | null : Json
  | bool (b : Bool) : Json
  | num (n : DecNum) : Json
  | str (s : String) : Json
  | arr (elems : List Json) : Json
  | obj (fields : List (String × Json)) : Json

/-- JSON insignificant whitespace (space, tab, newline, carriage return). -/
def isJsonWs (c : Char) : Bool :=
  c = ' ' || c = '\t' || c = '\n' || c = '\r'

/-- Four hexadecimal digits, as used by a `\u` escape. -/
def hexVal (c : Char) : Option Nat :=
  if 48 ≤ c.toNat && c.toNat ≤ 57 then some (c.toNat - 48)
  else if 65 ≤ c.toNat && c.toNat ≤ 70 then some (c.toNat - 55)
  else if 97 ≤ c.toNat && c.toNat ≤ 102 then some (c.toNat - 87)
  else none

/-- Read exactly four hex digits. -/
def hex4 : List Char → Option (Nat × List Char)
  | a :: b :: c :: d :: rest =>
    match hexVal a, hexVal b, hexVal c, hexVal d with
    | some x, some y, some z, some w => some (((x * 16 + y) * 16 + z) * 16 + w, rest)
    | _, _, _, _ => none
  | _ => none

/-- Parse the body of a JSON string after the opening quote.  UTF-16
surrogate-pair escapes are combined; a lone surrogate escape — which
`JSON.parse` keeps as an unpaired code unit — is modelled by U+FFFD since
Lean strings hold scalar values only. -/
def parseJsonStringBody : Nat → List Char → List Char → Option (String × List Char)
  | 0, _, _ => none
  | _ + 1, [], _ => none
  | fuel + 1, c :: rest, acc =>
    if c = '"' then some (⟨acc.reverse⟩, rest)
    else if c = '\\' then
      match rest with
      | [] => none
      | e :: r2 =>
        if e = '"' then parseJsonStringBody fuel r2 ('"' :: acc)
        else if e = '\\' then parseJsonStringBody fuel r2 ('\\' :: acc)
        else if e = '/' then parseJsonStringBody fuel r2 ('/' :: acc)
        else if e = 'b' then parseJsonStringBody fuel r2 ('\x08' :: acc)
        else if e = 'f' then parseJsonStringBody fuel r2 ('\x0c' :: acc)
        else if e = 'n' then parseJsonStringBody fuel r2 ('\n' :: acc)
        else if e = 'r' then parseJsonStringBody fuel r2 ('\r' :: acc)
        else if e = 't' then parseJsonStringBody fuel r2 ('\t' :: acc)
        else if e = 'u' then
          match hex4 r2 with
          | none => none
          | some (n, r3) =>
            if 0xD800 ≤ n && n ≤ 0xDBFF then
              match r3 with
              | '\\' :: 'u' :: r4 =>
                match hex4 r4 with
                | some (m, r5) =>
                  if 0xDC00 ≤ m && m ≤ 0xDFFF then
                    parseJsonStringBody fuel r5
                      (Char.ofNat (0x10000 + (n - 0xD800) * 0x400 + (m - 0xDC00)) :: acc)
                  else parseJsonStringBody fuel r3 ('�' :: acc)
                | none => parseJsonStringBody fuel r3 ('�' :: acc)
              | _ => parseJsonStringBody fuel r3 ('�' :: acc)
            else if 0xDC00 ≤ n && n ≤ 0xDFFF then
              parseJsonStringBody fuel r3 ('�' :: acc)
            else parseJsonStringBody fuel r3 (Char.ofNat n :: acc)
        else none
    else if c.toNat < 0x20 then none
    else parseJsonStringBody fuel rest (c :: acc)

/-- Multiply a decimal by `10 ^ e` for a (possibly negative) exponent. -/
def applyExp10 (d : DecNum) : Int → DecNum
  | .ofNat n => ⟨d.mant * (pow10 n : Int), d.exp10⟩
  | .negSucc n => ⟨d.mant, d.exp10 + (n + 1)⟩

/-- Parse a JSON number (strict JSON grammar: optional minus; `0` or a
nonzero-led digit run; optional fraction requiring digits; optional exponent
requiring digits). -/
def parseJsonNumber (cs : List Char) : Option (DecNum × List Char) :=
  let core := fun (l : List Char) (neg : Bool) =>
    let intRes : Option (Nat × List Char) :=
      match l with
      | '0' :: r => some (0, r)
      | c :: _ =>
        if isDigitChar c && c ≠ '0' then
          let ds := l.takeWhile isDigitChar
          some (digitsToNat ds, l.drop ds.length)
        else none
      | [] => none
    match intRes with
    | none => none
    | some (i, r1) =>
      let fracRes : Option (DecNum × List Char) :=
        match r1 with
        | '.' :: r2 =>
          let fs := r2.takeWhile isDigitChar
          if fs = [] then none
          else some (⟨(i * pow10 fs.length + digitsToNat fs : Nat), fs.length⟩,
            r2.drop fs.length)
        | _ => some (⟨(i : Nat), 0⟩, r1)
      match fracRes with
      | none => none
      | some (d, r3) =>
        let expRes : Option (Int × List Char) :=
          match r3 with
          | c :: r4 =>
            if c = 'e' || c = 'E' then
              let signedDigits := fun (l2 : List Char) (eneg : Bool) =>
                let es := l2.takeWhile isDigitChar
                if es = [] then none
                else some ((if eneg then -(digitsToNat es : Int)
                            else (digitsToNat es : Int)), l2.drop es.length)
              match r4 with
              | '+' :: r5 => signedDigits r5 false
              | '-' :: r5 => signedDigits r5 true
              | _ => signedDigits r4 false
            else some (0, r3)
          | [] => some (0, r3)
        match expRes with
        | none => none
        | some (e, r6) =>
          let signed : DecNum := if neg then ⟨-d.mant, d.exp10⟩ else d
          some (applyExp10 signed e, r6)
  match cs with
  | '-' :: r => core r true
  | _ => core cs false

/-- Replace the value of an existing key or append a new field, modelling a
property assignment during `JSON.parse` object construction (an existing key
keeps its position, its value is overwritten). -/
def insertField : List (String × Json) → String → Json → List (String × Json)
  | [], k, v => [(k, v)]
  | (k0, v0) :: rest, k, v =>
    if k0 = k then (k0, v) :: rest
    else (k0, v0) :: insertField rest k v

/-- Whether a key is a canonical array index (enumerated first and in numeric
order by `for..in`). -/
def isArrayIndexKey (s : String) : Bool :=
  s.data ≠ [] && s.data.all isDigitChar &&
  (s = "0" || ¬ strStarts s "0") && digitsToNat s.data < 4294967295

/-- Insert into a list sorted ascending by numeric key value. -/
def insertByIdx (p : String × Json) : List (String × Json) → List (String × Json)
  | [] => [p]
  | q :: rest =>
    if digitsToNat p.1.data < digitsToNat q.1.data then p :: q :: rest
    else q :: insertByIdx p rest

/-- Sort fields ascending by numeric key value (insertion sort). -/
def sortByIdx : List (String × Json) → List (String × Json)
  | [] => []
  | p :: rest => insertByIdx p (sortByIdx rest)

/-- Arrange object fields in `for..in` enumeration order: canonical
array-index keys ascending, then the rest in insertion order. -/
def forInOrder (fields : List (String × Json)) : List (String × Json) :=
  sortByIdx (fields.filter (fun kv => isArrayIndexKey kv.1)) ++
  fields.filter (fun kv => ¬ isArrayIndexKey kv.1)

mutual

/-- Parse one JSON value starting at the given characters (leading whitespace
allowed); returns the value and the remaining input. -/
def parseJsonValue : Nat → List Char → Option (Json × List Char)
  | 0, _ => none
  | fuel + 1, cs0 =>
    let cs := cs0.dropWhile isJsonWs
    match cs with
    | [] => none
    | c :: rest =>
      if c = '{' then
        let cs2 := rest.dropWhile isJsonWs
        match cs2 with
        | '}' :: r => some (.obj [], r)
        | _ => parseJsonMembers fuel cs2 []
      else if c = '[' then
        let cs2 := rest.dropWhile isJsonWs
        match cs2 with
        | ']' :: r => some (.arr [], r)
        | _ => parseJsonElems fuel cs2 []
      else if c = '"' then
        match parseJsonStringBody (rest.length + 1) rest [] with
        | some (s, r) => some (.str s, r)
        | none => none
      else if listStarts "true".data cs then some (.bool true, cs.drop 4)
      else if listStarts "false".data cs then some (.bool false, cs.drop 5)
      else if listStarts "null".data cs then some (.null, cs.drop 4)
      else
        match parseJsonNumber cs with
        | some (n, r) => some (.num n, r)
        | none => none

/-- Parse the members of a JSON object, starting at a key. -/
def parseJsonMembers : Nat → List Char → List (String × Json) →
    Option (Json × List Char)
  | 0, _, _ => none
  | fuel + 1, cs, acc =>
    match cs with
    | '"' :: r =>
      match parseJsonStringBody (r.length + 1) r [] with
      | none => none
      | some (k, r2) =>
        match r2.dropWhile isJsonWs with
        | ':' :: r3 =>
          match parseJsonValue fuel r3 with
          | none => none
          | some (v, r4) =>
            let acc2 := insertField acc k v
            match r4.dropWhile isJsonWs with
            | ',' :: r5 => parseJsonMembers fuel (r5.dropWhile isJsonWs) acc2
            | '}' :: r5 => some (.obj (forInOrder acc2), r5)
            | _ => none
        | _ => none
    | _ => none

/-- Parse the elements of a JSON array, starting at a value. -/
def parseJsonElems : Nat → List Char → List Json → Option (Json × List Char)
  | 0, _, _ => none
  | fuel + 1, cs, acc =>
    match parseJsonValue fuel cs with
    | none => none
    | some (v, r) =>
      match r.dropWhile isJsonWs with
      | ',' :: r2 => parseJsonElems fuel r2 (v :: acc)
      | ']' :: r2 => some (.arr (v :: acc).reverse, r2)
      | _ => none

end

/-- JavaScript `JSON.parse`: `none` models a thrown `SyntaxError`. -/
def jsonParse (s : String) : Option Json :=
  match parseJsonValue (8 * s.data.length + 16) s.data with
  | some (v, rest) => if rest.dropWhile isJsonWs = [] then some v else none
  | none => none

/-!  Canonical number-to-string conversion (ECMAScript `Number::toString` in
base 10), for the exact scaled decimals `DecNum` represents. -/

/-- Count how many times `p` divides `n` (fuelled, structural). -/
def countFactorAux (p : Nat) : Nat → Nat → Nat
  | 0, _ => 0
  | fuel + 1, n =>
    if n ≠ 0 && n % p = 0 then countFactorAux p fuel (n / p) + 1 else 0

/-- Number of trailing decimal zeros of a positive number. -/
def countTrailingZeros (n : Nat) : Nat := countFactorAux 10 n n

/-- The exponent part `e±x` of an ECMAScript number rendering. -/
def expPartString (m : Int) : String :=
  "e" ++ (if 0 ≤ m then "+" else "-") ++ natToDecString m.natAbs

/-- Render the positive value `a / 10 ^ m` (with `a > 0`) following the
ECMAScript `Number::toString` digit/exponent layout: `s` is the significant
digit string (trailing zeros stripped), `k` its length, and `n` the position
of the decimal point. -/
def renderPosDec (a : Nat) (m : Nat) : String :=
  let t := countTrailingZeros a
  let s := a / pow10 t
  let ds := natToDecString s
  let k := strLen ds
  let n : Int := (k : Int) + (t : Int) - (m : Int)
  if (k : Int) ≤ n && n ≤ 21 then
    ds ++ ⟨List.replicate (n - k).toNat '0'⟩
  else if 0 < n && n ≤ 21 then
    strTake ds n.toNat ++ "." ++ strDrop ds n.toNat
  else if -6 < n && n ≤ 0 then
    "0." ++ ⟨List.replicate (-n).toNat '0'⟩ ++ ds
  else if k = 1 then ds ++ expPartString (n - 1)
  else strTake ds 1 ++ "." ++ strDrop ds 1 ++ expPartString (n - 1)

/-- ECMAScript `String(number)` for a finite scaled decimal. -/
def renderDecNum (d : DecNum) : String :=
  if d.mant = 0 then "0"
  else (if d.mant < 0 then "-" else "") ++ renderPosDec d.mant.natAbs d.exp10

/-!  JavaScript `Number(string)` coercion, used by the serializer's
ambiguous-string check `!isNaN(Number(value)) && String(Number(value)) ===
value`.  The result is a finite scaled decimal or an infinity; `none` models
`NaN`.  Overflow beyond the binary64 range yields an infinity and underflow
below half of the least subnormal yields zero, as in the engine; rounding of
in-range values to binary64 is not modelled (they are kept exact). -/

/-- A JavaScript number value produced by `Number(string)`. -/
inductive JsNumberValue : Type where
  | finite (d : DecNum) : JsNumberValue
  | posInf : JsNumberValue
  | negInf : JsNumberValue
deriving DecidableEq

/-- Smallest magnitude rounding up to binary64 infinity. -/
def floatOverflowNat : Nat := pow2 1024 - pow2 970

/-- Clamp an exact decimal to the binary64 overflow/underflow behaviour. -/
def clampFloat (d : DecNum) : JsNumberValue :=
  if (floatOverflowNat : Int) * (pow10 d.exp10 : Int) ≤ d.mant then .posInf
  else if d.mant ≤ -((floatOverflowNat : Int) * (pow10 d.exp10 : Int)) then .negInf
  else if d.mant ≠ 0 && d.mant.natAbs * pow2 1075 ≤ pow10 d.exp10 then .finite ⟨0, 0⟩
  else .finite d

/-- Parse an ECMAScript `StrUnsignedDecimalLiteral` without the `Infinity`
alternative: `digits [. digits?] [exp]`, `. digits [exp]`; the whole input
must be consumed. -/
def parseDecimalLiteral (cs : List Char) : Option DecNum :=
  let expTail := fun (l : List Char) =>
    match l with
    | [] => some (0 : Int)
    | c :: r =>
      if c = 'e' || c = 'E' then
        let digitsAll := fun (l2 : List Char) (eneg : Bool) =>
          if l2 ≠ [] && l2.all isDigitChar then
            some (if eneg then -(digitsToNat l2 : Int) else (digitsToNat l2 : Int))
          else none
        match r with
        | '+' :: r2 => digitsAll r2 false
        | '-' :: r2 => digitsAll r2 true
        | _ => digitsAll r false
      else none
  let ds := cs.takeWhile isDigitChar
  if ds ≠ [] then
    match cs.drop ds.length with
    | '.' :: r2 =>
      let fs := r2.takeWhile isDigitChar
      (expTail (r2.drop fs.length)).map fun e =>
        applyExp10 ⟨(digitsToNat ds * pow10 fs.length + digitsToNat fs : Nat),
          fs.length⟩ e
    | rest => (expTail rest).map fun e => applyExp10 ⟨(digitsToNat ds : Nat), 0⟩ e
  else
    match cs with
    | '.' :: r2 =>
      let fs := r2.takeWhile isDigitChar
      if fs = [] then none
      else (expTail (r2.drop fs.length)).map fun e =>
        applyExp10 ⟨(digitsToNat fs : Nat), fs.length⟩ e
    | _ => none

/-- Parse the tail of a signed `StrDecimalLiteral` (after an optional sign):
`Infinity` or an unsigned decimal literal. -/
def parseSignedNumericTail (cs : List Char) (neg : Bool) : Option JsNumberValue :=
  if cs = "Infinity".data then
    some (if neg then .negInf else .posInf)
  else
    (parseDecimalLiteral cs).map fun d =>
      clampFloat (if neg then ⟨-d.mant, d.exp10⟩ else d)

/-- Parse a non-decimal integer literal body in the given base. -/
def parseRadixTail (base : Nat) (valid : Char → Bool) (cs : List Char) :
    Option JsNumberValue :=
  if cs ≠ [] && cs.all valid then
    some (clampFloat ⟨(cs.foldl (fun a c => base * a + (hexVal c).getD 0) 0 : Nat), 0⟩)
  else none

/-- JavaScript `Number(string)`: trim, then `StrNumericLiteral` (empty input
is zero; signed decimal or `Infinity`; unsigned hex/octal/binary); `none`
models `NaN`. -/
def jsStringToNumber (s : String) : Option JsNumberValue :=
  let t := trimChars s.data
  if t = [] then some (.finite ⟨0, 0⟩)
  else
    match t with
    | '+' :: rest => parseSignedNumericTail rest false
    | '-' :: rest => parseSignedNumericTail rest true
    | _ =>
      if listStarts "0x".data t || listStarts "0X".data t then
        parseRadixTail 16 (fun c => (hexVal c).isSome) (t.drop 2)
      else if listStarts "0o".data t || listStarts "0O".data t then
        parseRadixTail 8 (fun c => 48 ≤ c.toNat && c.toNat ≤ 55) (t.drop 2)
      else if listStarts "0b".data t || listStarts "0B".data t then
        parseRadixTail 2 (fun c => c = '0' || c = '1') (t.drop 2)
      else parseSignedNumericTail t false

/-- JavaScript `String(number)` on a `Number(string)` result. -/
def jsNumberValueToString : JsNumberValue → String
  | .finite d => renderDecNum d
  | .posInf => "Infinity"
  | .negInf => "-Infinity"

/-!  The JSON → ZW serializer (`jsonToZw` module, embedded in
`src/README.md`). -/

/-- Indentation unit of the serializer. -/
def JSON_TO_ZW_INDENT_SPACES : Nat := 2

/-- Key formatting hook of the source (the identity). -/
def formatZwKey (key : String) : String := key

/-- The serializer's ambiguity test for strings:
`lower === 'true' || lower === 'false' || lower === 'null' || (value !== "" &&
!isNaN(Number(value)) && String(Number(value)) === value)`. -/
def isPotentiallyAmbiguous (value : String) : Bool :=
  let lowerVal := asciiLower value
  lowerVal = "true" || lowerVal = "false" || lowerVal = "null" ||
    (value ≠ "" &&
      (match jsStringToNumber value with
       | some n => jsNumberValueToString n = value
       | none => false))

/-- The source's test `typeof value === 'object' && value !== null &&
(Object.keys(value).length > 0 || (Array.isArray(value) && value.length >
0))`: a non-null object or array with at least one property or element. -/
def jsonIsNonEmptyContainer : Json → Bool
  | .obj (_ :: _) => true
  | .arr (_ :: _) => true
  | _ => false

mutual

/-- The serializer's `convertValueToZw(value, currentIndentLevel)`.  Calls of
`convertObjectToZwItems` in the source appear here as `joinNl` of
`convertObjectLines`, which is that function's definition. -/
def convertValueToZw (value : Json) (currentIndentLevel : Nat) : String :=
  let indent := spaces (currentIndentLevel * JSON_TO_ZW_INDENT_SPACES)
  match value with
  | .null => "null"
  | .str s =>
    if s = "" then "\"\""
    else if isPotentiallyAmbiguous s then "\"" ++ escapeQuotes s ++ "\""
    else if strHasChar s '\n' then
      match splitLines s with
      | [] => ""
      | first :: rest =>
        joinNl (first :: rest.map (fun line => indent ++ line))
    else s
  | .num n => renderDecNum n
  | .bool b => if b then "true" else "false"
  | .arr elems =>
    if elems.isEmpty then "[] # Empty list"
    else joinNl (convertArrayLines elems currentIndentLevel indent)
  | .obj fields =>
    joinNl (convertObjectLines fields currentIndentLevel false true)

/-- The array-element loop of `convertValueToZw`: one output line per
element; an object element inlines its first property after the dash, with
the remaining lines re-indented; any other element is serialized inline after
the dash. -/
def convertArrayLines (elems : List Json) (currentIndentLevel : Nat)
    (indent : String) : List String :=
  match elems with
  | [] => []
  | .obj fields :: rest =>
    let itemIndent := spaces ((currentIndentLevel + 1) * JSON_TO_ZW_INDENT_SPACES)
    let itemObjectLines :=
      splitLines (joinNl (convertObjectLines fields (currentIndentLevel + 1) true true))
    (indent ++ "- " ++ joinWith ("\n" ++ itemIndent) itemObjectLines)
      :: convertArrayLines rest currentIndentLevel indent
  | item :: rest =>
    (indent ++ "- " ++ convertValueToZw item (currentIndentLevel + 1))
      :: convertArrayLines rest currentIndentLevel indent

/-- The per-property lines of `convertObjectToZwItems`; `firstKey` tracks the
loop flag of the source. -/
def convertObjectLines (fields : List (String × Json))
    (currentIndentLevel : Nat) (isChildOfListItem : Bool) (firstKey : Bool) :
    List String :=
  match fields with
  | [] => []
  | (key, value) :: rest =>
    let indent := spaces (currentIndentLevel * JSON_TO_ZW_INDENT_SPACES)
    let formattedKey := formatZwKey key
    let lineStartIndent := if isChildOfListItem && firstKey then "" else indent
    let lines :=
      if jsonIsNonEmptyContainer value then
        [lineStartIndent ++ formattedKey ++ ":",
          convertValueToZw value (currentIndentLevel + 1)]
      else
        [lineStartIndent ++ formattedKey ++ ": " ++
          convertValueToZw value currentIndentLevel]
    lines ++ convertObjectLines rest currentIndentLevel isChildOfListItem false

end

/-- The serializer's `convertObjectToZwItems(obj, currentIndentLevel,
isChildOfListItem)`: the joined per-property lines. -/
def convertObjectToZwItems (fields : List (String × Json))
    (currentIndentLevel : Nat) (isChildOfListItem : Bool) : String :=
  joinNl (convertObjectLines fields currentIndentLevel isChildOfListItem true)

/-- Host-defined diagnostic message of the `SyntaxError` thrown by
`JSON.parse` on invalid input (`err.message`); modelled as a fixed
single-line message, as real engines produce. -/
def jsonParseErrorMessage : String := "Unexpected token in JSON input"

/-- Whether an optional root type is provided and non-blank:
`rootZwType && rootZwType.trim()`. -/
def rootTypeProvided (rootZwType : Option String) : Bool :=
  match rootZwType with
  | some r => jsTrim r ≠ ""
  | none => false

/-- Whether the optional root type is falsy (`!rootZwType`): absent or the
empty string. -/
def rootTypeFalsy (rootZwType : Option String) : Bool :=
  rootZwType = none || rootZwType = some ""

/-- The serializer body after a successful `JSON.parse`: emit the trimmed
root-type header when provided, then the object properties, or the array
lines (with a synthetic `JSON_ARRAY_ROOT:` when the root type is falsy), or a
`ROOT_VALUE:` line for a primitive (with a synthetic `JSON_PRIMITIVE_ROOT:`
when the root type is falsy). -/
def convertParsedJsonToZw (parsedJson : Json) (rootZwType : Option String) :
    String :=
  let baseIndentLevel : Nat := if rootTypeProvided rootZwType then 1 else 0
  let header :=
    if rootTypeProvided rootZwType then jsTrim (rootZwType.getD "") ++ ":\n"
    else ""
  let zwOutput :=
    match parsedJson with
    | .obj fields =>
      header ++ convertObjectToZwItems fields baseIndentLevel false
    | .arr _ =>
      let pre := if rootTypeFalsy rootZwType then "JSON_ARRAY_ROOT:\n" else ""
      header ++ pre ++ convertValueToZw parsedJson baseIndentLevel
    | _ =>
      let pre := if rootTypeFalsy rootZwType then "JSON_PRIMITIVE_ROOT:\n" else ""
      header ++ pre ++ spaces (baseIndentLevel * JSON_TO_ZW_INDENT_SPACES) ++
        "ROOT_VALUE: " ++ convertValueToZw parsedJson 0
  if jsTrim zwOutput = "" && rootTypeProvided rootZwType then
    jsTrim (rootZwType.getD "") ++ ":"
  else zwOutput

/-- The serializer entry point `convertJsonToZwString(jsonString,
rootZwType?)`: a caught `JSON.parse` failure yields a comment-only error
document, everything else goes through `convertParsedJsonToZw`. -/
def convertJsonToZwString (jsonString : String) (rootZwType : Option String) :
    String :=
  match jsonParse jsonString with
  | none => "# Error: Invalid JSON input.\n# " ++ jsonParseErrorMessage
  | some parsedJson => convertParsedJsonToZw parsedJson rootZwType

/-!  Auxiliary notions used by the theorems below. -/

/-- The bottom frame of a stack given as top frame plus the frames below. -/
def lastFrame (top : Frame) : List Frame → Frame
  | [] => top
  | g :: r => lastFrame g r

/-- Key and depth of the bottom (root) frame of a stack. -/
def bottomSig : List Frame → Option (String × DecNum)
  | [] => none
  | f :: r => some ((lastFrame f r).key, (lastFrame f r).depth)

/-- The parser-stack invariant: nonempty, bottom at depth `0`, and depths
strictly decreasing from top of stack to bottom. -/
def StackInvL : List Frame → Prop
  | [] => False
  | [f] => f.depth = ⟨0, 0⟩
  | f :: g :: rest => DecNum.lt g.depth f.depth ∧ StackInvL (g :: rest)

/-- Whether a JSON value is a primitive (not an object and not an array). -/
def jsonIsPrimitive : Json → Bool
  | .null => true
  | .bool _ => true
  | .num _ => true
  | .str _ => true
  | .arr _ => false
  | .obj _ => false

/-!  General lemmas. -/

theorem pow10_int_pos (n : Nat) : (0 : Int) < (pow10 n : Int) := by
  have : 0 < pow10 n := Nat.pos_pow_of_pos n (by norm_num)
  exact_mod_cast this

theorem DecNum.lt_trans_le {a b c : DecNum} (h1 : DecNum.lt a b)
    (h2 : DecNum.le b c) : DecNum.lt a c := by
  unfold DecNum.lt at h1 ⊢
  unfold DecNum.le at h2
  have hpa := pow10_int_pos a.exp10
  have hpb := pow10_int_pos b.exp10
  have hpc := pow10_int_pos c.exp10
  have h3 := mul_lt_mul_of_pos_right h1 hpc
  have h4 := mul_le_mul_of_nonneg_right h2 (le_of_lt hpa)
  have hchain : a.mant * (pow10 c.exp10 : Int) * (pow10 b.exp10 : Int) <
      c.mant * (pow10 a.exp10 : Int) * (pow10 b.exp10 : Int) := by nlinarith
  exact lt_of_mul_lt_mul_right hchain (le_of_lt hpb)

theorem DecNum.zero_lt_of_one_le {d : DecNum} (h : DecNum.le ⟨1, 0⟩ d) :
    DecNum.lt ⟨0, 0⟩ d :=
  DecNum.lt_trans_le (by decide) h

theorem one_le_lineDepth (line : String) : DecNum.le ⟨1, 0⟩ (lineDepth line) := by
  unfold lineDepth jsMax
  split
  · assumption
  · decide

theorem list_all_takeWhile (p : Char → Bool) :
    ∀ l : List Char, (l.takeWhile p).all p = true := by
  intro l
  induction l with
  | nil => rfl
  | cons c rest ih =>
    by_cases h : p c
    · simp [List.takeWhile_cons, h, ih]
    · simp [List.takeWhile_cons, h]

theorem rootLineMatch_chars {line k : String} (h : rootLineMatch line = some k) :
    k.data.all isRootKeyChar = true := by
  unfold rootLineMatch at h
  dsimp only at h
  split at h
  · split at h
    · rw [Option.some_inj] at h
      subst h
      exact list_all_takeWhile isRootKeyChar line.data
    · exact absurd h (by simp)
  · exact absurd h (by simp)

theorem rootLineMatch_key_ne_error {line k : String}
    (h : rootLineMatch line = some k) : k ≠ "Error: Invalid Root" := by
  intro hk
  have := rootLineMatch_chars h
  rw [hk] at this
  exact absurd this (by decide)

theorem lastFrame_congr (r : List Frame) (g g2 : Frame)
    (hk : g2.key = g.key) (hd : g2.depth = g.depth) :
    (lastFrame g2 r).key = (lastFrame g r).key ∧
    (lastFrame g2 r).depth = (lastFrame g r).depth := by
  cases r with
  | nil => exact ⟨hk, hd⟩
  | cons h t => exact ⟨rfl, rfl⟩

theorem StackInvL_congr_head {p p2 : Frame} {r : List Frame}
    (h : StackInvL (p :: r)) (hd : p2.depth = p.depth) : StackInvL (p2 :: r) := by
  cases r with
  | nil =>
    show p2.depth = ⟨0, 0⟩
    rw [hd]
    exact h
  | cons g t =>
    obtain ⟨h1, h2⟩ : DecNum.lt g.depth p.depth ∧ StackInvL (g :: t) := h
    refine ⟨?_, h2⟩
    rw [hd]
    exact h1

theorem popStack_spec (d : DecNum) (hd : DecNum.le ⟨1, 0⟩ d) :
    ∀ (rest : List Frame) (top : Frame), StackInvL (top :: rest) →
      ∃ t r, popStack d top rest = t :: r ∧ DecNum.lt t.depth d ∧
        StackInvL (t :: r) ∧
        (lastFrame t r).key = (lastFrame top rest).key ∧
        (lastFrame t r).depth = (lastFrame top rest).depth := by
  intro rest
  induction rest with
  | nil =>
    intro top hinv
    have hdep : top.depth = ⟨0, 0⟩ := hinv
    refine ⟨top, [], rfl, ?_, hinv, rfl, rfl⟩
    rw [hdep]
    exact DecNum.zero_lt_of_one_le hd
  | cons g r ih =>
    intro top hinv
    have hinvc : DecNum.lt g.depth top.depth ∧ StackInvL (g :: r) := hinv
    obtain ⟨hlt, hinv2⟩ := hinvc
    by_cases hcase : DecNum.lt top.depth d
    · exact ⟨top, g :: r, by simp [popStack, hcase], hcase, hinv, rfl, rfl⟩
    · have hinv3 : StackInvL (pushChild g (.node (materializeFrame top)) :: r) :=
        StackInvL_congr_head hinv2 rfl
      obtain ⟨t, r2, heq, hlt2, hinv4, hk, hdp⟩ :=
        ih (pushChild g (.node (materializeFrame top))) hinv3
      refine ⟨t, r2, by simp [popStack, hcase, heq], hlt2, hinv4, ?_, ?_⟩
      · rw [hk]
        exact (lastFrame_congr r g (pushChild g (.node (materializeFrame top)))
          rfl rfl).1
      · rw [hdp]
        exact (lastFrame_congr r g (pushChild g (.node (materializeFrame top)))
          rfl rfl).2

theorem processLine_spec (eff line : String) (st : List Frame)
    (hinv : StackInvL st) :
    StackInvL (processLine eff st line) ∧
    bottomSig (processLine eff st line) = bottomSig st := by
  match st with
  | [] => exact absurd hinv (by simp [StackInvL])
  | f :: rest =>
    obtain ⟨t, r, heq, hlt, hinv2, hk, hdp⟩ :=
      popStack_spec (lineDepth line) (one_le_lineDepth line) rest f hinv
    have hsig : (some ((lastFrame t r).key, (lastFrame t r).depth) :
        Option (String × DecNum)) = bottomSig (f :: rest) := by
      rw [hk, hdp]
      rfl
    have hrep : ∀ p2 : Frame, p2.key = t.key → p2.depth = t.depth →
        StackInvL (p2 :: r) ∧ bottomSig (p2 :: r) = bottomSig (f :: rest) := by
      intro p2 hkey hdep
      refine ⟨StackInvL_congr_head hinv2 hdep, ?_⟩
      show some ((lastFrame p2 r).key, (lastFrame p2 r).depth) = _
      obtain ⟨e1, e2⟩ := lastFrame_congr r t p2 hkey hdep
      rw [e1, e2]
      exact hsig
    have hpush : ∀ key : String,
        StackInvL ((⟨key, lineDepth line, some eff, []⟩ : Frame) :: t :: r) ∧
        bottomSig ((⟨key, lineDepth line, some eff, []⟩ : Frame) :: t :: r) =
          bottomSig (f :: rest) := by
      intro key
      exact ⟨⟨hlt, hinv2⟩, hsig⟩
    show StackInvL (processLine eff (f :: rest) line) ∧ _
    unfold processLine
    dsimp only
    rw [heq]
    dsimp only
    split
    · split
      · exact hrep _ rfl rfl
      · exact hrep _ rfl rfl
    · split
      · exact hpush _
      · split
        · exact hrep _ rfl rfl
        · exact hrep _ rfl rfl

theorem runLines_spec (eff : String) (lines : List String) :
    ∀ st : List Frame, StackInvL st →
      StackInvL (runLines eff st lines) ∧
      bottomSig (runLines eff st lines) = bottomSig st := by
  induction lines with
  | nil => exact fun st h => ⟨h, rfl⟩
  | cons l rest ih =>
    intro st h
    obtain ⟨h1, h2⟩ := processLine_spec eff l st h
    obtain ⟨h3, h4⟩ := ih (processLine eff st l) h1
    have hfold : runLines eff st (l :: rest) =
        runLines eff (processLine eff st l) rest := rfl
    rw [hfold]
    exact ⟨h3, by rw [h4, h2]⟩

theorem closeAll_key : ∀ (rest : List Frame) (top : Frame),
    (closeAll top rest).key = (lastFrame top rest).key := by
  intro rest
  induction rest with
  | nil => intro top; rfl
  | cons g r ih =>
    intro top
    show (closeAll (pushChild g (.node (materializeFrame top))) r).key = _
    rw [ih]
    exact (lastFrame_congr r g (pushChild g (.node (materializeFrame top)))
      rfl rfl).1

theorem semanticLinesOf_empty : semanticLinesOf "" = [] := rfl

/-- C1: for every input string whose first semantic line is not an identifier
followed by the delimiter and nothing else, `parseZW` returns (it never
throws and never yields an empty success) the error-tagged node whose key is
`Error: Invalid Root` carrying the diagnostic message — not a node named
after the malformed line. -/
theorem parseZW_invalid_root (s l : String) (rest : List String)
    (optD : Option String)
    (hlines : semanticLinesOf (processedInput s) = l :: rest)
    (hroot : rootLineMatch l = none) :
    parseZW s optD = some (.mk "Error: Invalid Root"
      (.str (invalidRootMessage l)) ⟨0, 0⟩ none) := by
  have hne : processedInput s ≠ "" := by
    intro hemp
    rw [hemp, semanticLinesOf_empty] at hlines
    exact List.noConfusion hlines
  unfold parseZW
  dsimp only
  rw [if_neg hne, hlines]
  dsimp only
  rw [hroot]

/-- Witness for C1 at the spec's example `FOO: bar` (content trails the colon
on the first line). -/
theorem parseZW_invalid_root_witness :
    semanticLinesOf (processedInput "FOO: bar") = ["FOO: bar"] ∧
    rootLineMatch "FOO: bar" = none ∧
    parseZW "FOO: bar" none = some (.mk "Error: Invalid Root"
      (.str (invalidRootMessage "FOO: bar")) ⟨0, 0⟩ none) :=
  ⟨rfl, rfl, parseZW_invalid_root "FOO: bar" "FOO: bar" [] none rfl rfl⟩

/-- C10: for every input string whose first semantic line is a valid root
declaration, `parseZW` returns a success node whose key is the declared type,
never the error-tagged result, regardless of all subsequent lines: the
invalid-root check is the parser's only error path. -/
theorem parseZW_valid_root_success (s l : String) (rest : List String)
    (k : String) (optD : Option String)
    (hlines : semanticLinesOf (processedInput s) = l :: rest)
    (hroot : rootLineMatch l = some k) :
    ∃ root : ZWNode, parseZW s optD = some root ∧ root.key = k ∧
      root.key ≠ "Error: Invalid Root" := by
  have hne : processedInput s ≠ "" := by
    intro hemp
    rw [hemp, semanticLinesOf_empty] at hlines
    exact List.noConfusion hlines
  unfold parseZW
  dsimp only
  rw [if_neg hne, hlines]
  dsimp only
  rw [hroot]
  dsimp only
  have hinv0 : StackInvL
      [⟨k, ⟨0, 0⟩, some (effectiveDelimiterOf optD), []⟩] := rfl
  obtain ⟨hinv, hsig⟩ := runLines_spec (effectiveDelimiterOf optD) rest
    [⟨k, ⟨0, 0⟩, some (effectiveDelimiterOf optD), []⟩] hinv0
  cases hrun : runLines (effectiveDelimiterOf optD)
      [⟨k, ⟨0, 0⟩, some (effectiveDelimiterOf optD), []⟩] rest with
  | nil =>
    rw [hrun] at hinv
    exact absurd hinv (by simp [StackInvL])
  | cons top r2 =>
    rw [hrun] at hsig
    dsimp only
    have h2 : (some ((lastFrame top r2).key, (lastFrame top r2).depth) :
        Option (String × DecNum)) = some (k, ⟨0, 0⟩) := hsig
    have h4 := Option.some_inj.mp h2
    injection h4 with hk1 hk2
    refine ⟨closeAll top r2, rfl, ?_, ?_⟩
    · rw [closeAll_key]
      exact hk1
    · rw [closeAll_key, hk1]
      exact rootLineMatch_key_ne_error hroot

/-- Witness for C10 on a document with a valid root and arbitrary body. -/
theorem parseZW_valid_root_success_witness :
    semanticLinesOf (processedInput "ZW-REQUEST:\n  a: 1\n  junk !!") =
      ["ZW-REQUEST:", "  a: 1", "  junk !!"] ∧
    rootLineMatch "ZW-REQUEST:" = some "ZW-REQUEST" ∧
    ∃ root : ZWNode, parseZW "ZW-REQUEST:\n  a: 1\n  junk !!" none = some root ∧
      root.key = "ZW-REQUEST" ∧ root.key ≠ "Error: Invalid Root" :=
  ⟨rfl, rfl, parseZW_valid_root_success "ZW-REQUEST:\n  a: 1\n  junk !!"
    "ZW-REQUEST:" ["  a: 1", "  junk !!"] "ZW-REQUEST" none rfl rfl⟩

/-- C4: during the line loop, depth resolution pops the stack while the top
node's depth is greater-than-or-equal to the line's depth and stops at the
first strictly-shallower node: for any stack satisfying the parser invariant
and any line depth of at least 1, the popped stack is nonempty and its top —
the active parent the line is attached under — has depth strictly less than
the line's depth; the bottom (root) frame is never popped; processing any
line preserves the invariant; and every line's depth is at least 1. -/
theorem parseZW_depth_resolution (st : List Frame) (d : DecNum)
    (hinv : StackInvL st) (hd : DecNum.le ⟨1, 0⟩ d) :
    (∃ p r, popStackList d st = p :: r ∧ DecNum.lt p.depth d) ∧
    bottomSig (popStackList d st) = bottomSig st ∧
    (∀ eff line, StackInvL (processLine eff st line)) ∧
    (∀ line, DecNum.le ⟨1, 0⟩ (lineDepth line)) := by
  match st with
  | [] => exact absurd hinv (by simp [StackInvL])
  | f :: rest =>
    obtain ⟨t, r, heq, hlt, hinv2, hk, hdp⟩ := popStack_spec d hd rest f hinv
    refine ⟨⟨t, r, heq, hlt⟩, ?_, ?_, one_le_lineDepth⟩
    · show bottomSig (popStack d f rest) = _
      rw [heq]
      show some ((lastFrame t r).key, (lastFrame t r).depth) = _
      rw [hk, hdp]
      rfl
    · intro eff line
      exact (processLine_spec eff line (f :: rest) hinv).1

/-- Witness for C4 on the singleton root stack and line depth 1. -/
theorem parseZW_depth_resolution_witness :
    StackInvL [(⟨"ZW-R", ⟨0, 0⟩, some ":", []⟩ : Frame)] ∧
    DecNum.le ⟨1, 0⟩ ⟨1, 0⟩ ∧
    ∃ p r, popStackList ⟨1, 0⟩ [(⟨"ZW-R", ⟨0, 0⟩, some ":", []⟩ : Frame)] =
      p :: r ∧ DecNum.lt p.depth ⟨1, 0⟩ :=
  ⟨rfl, by decide,
    (parseZW_depth_resolution [⟨"ZW-R", ⟨0, 0⟩, some ":", []⟩] ⟨1, 0⟩ rfl
      (by decide)).1⟩

/-- C2 counterexample: depth is not derived with integer division — the line
`   a: b` indented with 3 spaces is parsed at depth 3/2, not depth 1. -/
theorem parseZW_depth_three_spaces_cex :
    parseZW "R:\n   a: b" none = some (.mk "R"
      (.arr [.node (.mk "a" (.str "b") ⟨15, 1⟩ (some ":"))])
      ⟨0, 0⟩ (some ":")) ∧
    DecNum.toRat ⟨15, 1⟩ = 3 / 2 ∧ ((3 : ℚ) / 2) ≠ 1 :=
  ⟨rfl, by norm_num [DecNum.toRat, pow10], by norm_num⟩

/-- C2 amended: depth is `max(1, indentation / 2)` with exact (float)
division — a 2-space line maps to depth 1 but a 3-space line maps to depth
3/2, and a 3-space line after an open 2-space section nests inside it rather
than collapsing to the same level. -/
theorem parseZW_depth_exact_division :
    parseZW "R:\n  a: b" none = some (.mk "R"
      (.arr [.node (.mk "a" (.str "b") ⟨1, 0⟩ (some ":"))])
      ⟨0, 0⟩ (some ":")) ∧
    parseZW "R:\n   a: b" none = some (.mk "R"
      (.arr [.node (.mk "a" (.str "b") ⟨15, 1⟩ (some ":"))])
      ⟨0, 0⟩ (some ":")) ∧
    DecNum.toRat ⟨1, 0⟩ = 1 ∧ DecNum.toRat ⟨15, 1⟩ = 3 / 2 ∧
    parseZW "R:\n  sec:\n   x: 1" none = some (.mk "R"
      (.arr [.node (.mk "sec"
        (.arr [.node (.mk "x" (.str "1") ⟨15, 1⟩ (some ":"))])
        ⟨1, 0⟩ (some ":"))])
      ⟨0, 0⟩ (some ":")) :=
  ⟨rfl, rfl, by norm_num [DecNum.toRat, pow10],
    by norm_num [DecNum.toRat, pow10], rfl⟩

/-- C5: serializing `{"items":[{"x":1},{"x":2}]}` produces the dash-prefixed
lines `- x: 1` and `- x: 2` indented two spaces, and parsing that output
yields, under the key `items`, exactly two key-value list items with
`isKeyValue` true and `itemKey` `x`. -/
theorem json_list_of_objects_round_trip :
    convertJsonToZwString "\x7b\"items\":[\x7b\"x\":1\x7d,\x7b\"x\":2\x7d]\x7d"
      none = "items:\n  - x: 1\n  - x: 2" ∧
    parseZW "items:\n  - x: 1\n  - x: 2" none = some (.mk "items"
      (.arr [.item (.mk (.str "1") true (some "x") ⟨1, 0⟩ (some ":")),
             .item (.mk (.str "2") true (some "x") ⟨1, 0⟩ (some ":"))])
      ⟨0, 0⟩ (some ":")) :=
  ⟨rfl, rfl⟩

/-- C6: the string value `line1\nline2` is serialized across two physical
lines — the first inline after the key, the second indented to the current
level — and parsing that output reconstructs a leaf holding the identical
two-line scalar. -/
theorem json_multiline_string_round_trip :
    convertJsonToZwString "\x7b\"t\":\"line1\\nline2\"\x7d" (some "ZW-TEST") =
      "ZW-TEST:\n  t: line1\n  line2" ∧
    parseZW "ZW-TEST:\n  t: line1\n  line2" none = some (.mk "ZW-TEST"
      (.arr [.node (.mk "t" (.str "line1\nline2") ⟨1, 0⟩ (some ":"))])
      ⟨0, 0⟩ (some ":")) :=
  ⟨rfl, rfl⟩

/-- C9 counterexample: a non-list line with a key, the delimiter and an empty
trailing value (`key:`) parses as a section node holding an empty child
sequence, not as a leaf holding the empty-string scalar. -/
theorem empty_value_not_leaf_cex :
    parseZW "R:\n  key:" none = some (.mk "R"
      (.arr [.node (.mk "key" (.arr []) ⟨1, 0⟩ (some ":"))])
      ⟨0, 0⟩ (some ":")) ∧
    ZWValue.arr ([] : List ZWEntry) ≠ ZWValue.str "" :=
  ⟨rfl, fun h => ZWValue.noConfusion h⟩

/-- C3 counterexample: an object root serialized without a root type gets no
synthetic root label — the output `a: 1` has content trailing the colon on
its first line, so it violates the root-declaration invariant and re-parses
as the invalid-root error. -/
theorem object_root_no_label_cex :
    convertJsonToZwString "\x7b\"a\":1\x7d" none = "a: 1" ∧
    rootLineMatch "a: 1" = none ∧
    parseZW "a: 1" none = some (.mk "Error: Invalid Root"
      (.str (invalidRootMessage "a: 1")) ⟨0, 0⟩ none) :=
  ⟨rfl, rfl, rfl⟩

theorem kvSplitAux_empty_section (delim : String) (l : List Char) :
    ∀ (n : Nat) (k : String), kvSplitAux delim l n = some (k, "") →
      sectionSplitAux delim l n = some k := by
  intro n
  induction n with
  | zero =>
    intro k h
    exact absurd h (by simp [kvSplitAux])
  | succ m ih =>
    intro k h
    unfold kvSplitAux at h
    unfold sectionSplitAux
    dsimp only at h ⊢
    split at h
    · split at h
      · have hpair := Option.some_inj.mp h
        have hkey : k = ⟨l.take (m + 1)⟩ := (congrArg Prod.fst hpair).symm
        have hval : (⟨((l.drop (m + 1)).drop delim.data.length).dropWhile
            jsWhitespace⟩ : String) = "" := congrArg Prod.snd hpair
        have hnil : ((l.drop (m + 1)).drop delim.data.length).dropWhile
            jsWhitespace = [] := congrArg String.data hval
        have hall : ((l.drop (m + 1)).drop delim.data.length).all
            jsWhitespace = true := by
          rw [List.all_eq_true]
          intro x hx
          exact List.dropWhile_eq_nil_iff.mp hnil x hx
        rw [if_pos (by simp_all), hkey]
      · rename_i hcond hterm
        have hsec : ¬ (((l.take (m + 1)).all isChildKeyChar &&
            listStarts delim.data (l.drop (m + 1)) &&
            ((l.drop (m + 1)).drop delim.data.length).all jsWhitespace)
            = true) := by
          intro hs
          have hws : ((l.drop (m + 1)).drop delim.data.length).all
              jsWhitespace = true := by
            simp only [Bool.and_eq_true] at hs
            exact hs.2
          have hnil : ((l.drop (m + 1)).drop delim.data.length).dropWhile
              jsWhitespace = [] := by
            rw [List.dropWhile_eq_nil_iff]
            intro x hx
            exact (List.all_eq_true.mp hws) x hx
          rw [hnil] at hterm
          exact hterm (by simp)
        rw [if_neg hsec]
        exact ih k h
    · rename_i hcond
      have hsec : ¬ (((l.take (m + 1)).all isChildKeyChar &&
          listStarts delim.data (l.drop (m + 1)) &&
          ((l.drop (m + 1)).drop delim.data.length).all jsWhitespace)
          = true) := by
        intro hs
        simp only [Bool.and_eq_true] at hs hcond
        exact hcond ⟨hs.1.1, hs.1.2⟩
      rw [if_neg hsec]
      exact ih k h

/-- An empty-valued key-value match implies (and is pre-empted by) a section
match with the same key capture. -/
theorem kvSplit_empty_section (delim line k : String)
    (h : kvSplit delim line = some (k, "")) : sectionSplit delim line = some k :=
  kvSplitAux_empty_section delim line.data line.data.length k h

/-- C9 amended: a non-list line consisting of a key, the delimiter and an
empty trailing value always matches the section pattern first (any key-value
match with an empty value capture implies a section match with the same key),
so it parses as a section node holding an empty child sequence (not null and
not an empty-string leaf); an empty-string scalar arises instead for a
key-value list item such as `- key:`. -/
theorem empty_value_section_amended :
    (∀ delim line k, kvSplit delim line = some (k, "") →
      sectionSplit delim line = some k) ∧
    parseZW "R:\n  key:" none = some (.mk "R"
      (.arr [.node (.mk "key" (.arr []) ⟨1, 0⟩ (some ":"))])
      ⟨0, 0⟩ (some ":")) ∧
    parseZW "R:\n  - key:" none = some (.mk "R"
      (.arr [.item (.mk (.str "") true (some "key") ⟨1, 0⟩ (some ":"))])
      ⟨0, 0⟩ (some ":")) :=
  ⟨kvSplit_empty_section, rfl, rfl⟩

/-- Witness for C9 amended at the default delimiter and the line `key:`. -/
theorem empty_value_section_amended_witness :
    kvSplit ":" "key:" = some ("key", "") ∧ sectionSplit ":" "key:" = some "key" :=
  ⟨rfl, empty_value_section_amended.1 ":" "key:" "key" rfl⟩

/-- C3 amended: when `convertJsonToZwString` is called without a root type, a
synthetic root label is emitted only for array roots (`JSON_ARRAY_ROOT`) and
primitive roots (`JSON_PRIMITIVE_ROOT`) — both of which satisfy the
root-declaration pattern — while an object root is serialized as its bare
properties with no root label at all. -/
theorem synthetic_root_amended :
    (∀ elems : List Json, convertParsedJsonToZw (.arr elems) none =
      "JSON_ARRAY_ROOT:\n" ++ convertValueToZw (.arr elems) 0) ∧
    (∀ j : Json, jsonIsPrimitive j = true → convertParsedJsonToZw j none =
      "JSON_PRIMITIVE_ROOT:\nROOT_VALUE: " ++ convertValueToZw j 0) ∧
    (∀ fields : List (String × Json), convertParsedJsonToZw (.obj fields) none =
      convertObjectToZwItems fields 0 false) ∧
    rootLineMatch "JSON_ARRAY_ROOT:" = some "JSON_ARRAY_ROOT" ∧
    rootLineMatch "JSON_PRIMITIVE_ROOT:" = some "JSON_PRIMITIVE_ROOT" := by
  refine ⟨?_, ?_, ?_, rfl, rfl⟩
  · intro elems
    unfold convertParsedJsonToZw
    dsimp only [rootTypeProvided, rootTypeFalsy]
    simp only [Bool.and_false]
    rfl
  · intro j hj
    rcases j with _ | b | nv | sv | es | fs
    · unfold convertParsedJsonToZw
      dsimp only [rootTypeProvided, rootTypeFalsy]
      simp only [Bool.and_false]
      rfl
    · unfold convertParsedJsonToZw
      dsimp only [rootTypeProvided, rootTypeFalsy]
      simp only [Bool.and_false]
      rfl
    · unfold convertParsedJsonToZw
      dsimp only [rootTypeProvided, rootTypeFalsy]
      simp only [Bool.and_false]
      rfl
    · unfold convertParsedJsonToZw
      dsimp only [rootTypeProvided, rootTypeFalsy]
      simp only [Bool.and_false]
      rfl
    · exact absurd hj (by simp [jsonIsPrimitive])
    · exact absurd hj (by simp [jsonIsPrimitive])
  · intro fields
    unfold convertParsedJsonToZw
    dsimp only [rootTypeProvided, rootTypeFalsy]
    simp only [Bool.and_false]
    rfl

/-- Witness for C3 amended on the primitive root `null`. -/
theorem synthetic_root_amended_witness :
    jsonIsPrimitive Json.null = true ∧
    convertParsedJsonToZw Json.null none =
      "JSON_PRIMITIVE_ROOT:\nROOT_VALUE: " ++ convertValueToZw Json.null 0 :=
  ⟨rfl, synthetic_root_amended.2.1 Json.null rfl⟩

theorem isPotentiallyAmbiguous_iff (s : String) :
    isPotentiallyAmbiguous s = true ↔
      (asciiLower s = "true" ∨ asciiLower s = "false" ∨ asciiLower s = "null" ∨
        (s ≠ "" ∧ (jsStringToNumber s).map jsNumberValueToString = some s)) := by
  unfold isPotentiallyAmbiguous
  dsimp only
  rcases hn : jsStringToNumber s with _ | n
  · simp [hn]
    tauto
  · simp [hn]
    tauto

theorem isPotentiallyAmbiguous_ne_empty {s : String}
    (h : isPotentiallyAmbiguous s = true) : s ≠ "" := by
  intro he
  subst he
  exact absurd h (by decide)

set_option maxRecDepth 8000 in
/-- C7: a string is serialized quoted (with internal quotes escaped) exactly
when its lowercase value equals `true`, `false` or `null`, or its text
round-trips through `Number` coercion and canonical rendering; every other
nonempty single-line string is emitted verbatim (unquoted); in particular the
string `"42"` is emitted quoted while the number `42` is emitted bare. -/
theorem string_quoting_rule :
    (∀ (s : String) (lvl : Nat),
      (asciiLower s = "true" ∨ asciiLower s = "false" ∨ asciiLower s = "null" ∨
        (s ≠ "" ∧ (jsStringToNumber s).map jsNumberValueToString = some s)) →
      convertValueToZw (.str s) lvl = "\"" ++ escapeQuotes s ++ "\"") ∧
    (∀ (s : String) (lvl : Nat), s ≠ "" →
      ¬ (asciiLower s = "true" ∨ asciiLower s = "false" ∨ asciiLower s = "null" ∨
        (s ≠ "" ∧ (jsStringToNumber s).map jsNumberValueToString = some s)) →
      strHasChar s '\n' = false →
      convertValueToZw (.str s) lvl = s) ∧
    convertValueToZw (.str "42") 0 = "\"42\"" ∧
    convertValueToZw (.num ⟨42, 0⟩) 0 = "42" := by
  refine ⟨?_, ?_, ?_, rfl⟩
  · intro s lvl hcond
    have hamb : isPotentiallyAmbiguous s = true :=
      (isPotentiallyAmbiguous_iff s).mpr hcond
    have hne : s ≠ "" := isPotentiallyAmbiguous_ne_empty hamb
    unfold convertValueToZw
    dsimp only
    rw [if_neg hne, if_pos hamb]
  · intro s lvl hne hcond hnl
    have hamb : ¬ (isPotentiallyAmbiguous s = true) := by
      intro hx
      exact hcond ((isPotentiallyAmbiguous_iff s).mp hx)
    unfold convertValueToZw
    dsimp only
    rw [if_neg hne, if_neg hamb, if_neg (by simp [hnl])]
  · show convertValueToZw (.str "42") 0 = "\"42\""
    unfold convertValueToZw
    dsimp only
    rw [if_neg (by decide : ¬ ("42" : String) = ""),
      if_pos (by decide : isPotentiallyAmbiguous "42" = true)]
    rfl

/-- Witness for C7: the keyword-like string `TRUE` is quoted and the plain
string `hello` is emitted verbatim. -/
theorem string_quoting_rule_witness :
    convertValueToZw (.str "TRUE") 0 = "\"TRUE\"" ∧
    convertValueToZw (.str "hello") 0 = "hello" :=
  ⟨string_quoting_rule.1 "TRUE" 0 (Or.inl rfl),
    string_quoting_rule.2.1 "hello" 0 (by decide) (by decide) rfl⟩

/-- C8: `convertJsonToZwString` is a total function returning text; on any
input rejected by the JSON parser it returns the comment-only error
document — it starts with `# Error:` and every one of its lines starts with
`#`. -/
theorem convertJson_invalid_json_error_doc (s : String) (rt : Option String)
    (h : jsonParse s = none) :
    convertJsonToZwString s rt =
      "# Error: Invalid JSON input.\n# " ++ jsonParseErrorMessage ∧
    strStarts (convertJsonToZwString s rt) "# Error:" = true ∧
    ∀ line ∈ splitLines (convertJsonToZwString s rt),
      strStarts line "#" = true := by
  have hmain : convertJsonToZwString s rt =
      "# Error: Invalid JSON input.\n# " ++ jsonParseErrorMessage := by
    unfold convertJsonToZwString
    rw [h]
  refine ⟨hmain, ?_, ?_⟩
  · rw [hmain]
    rfl
  · rw [hmain]
    decide

/-- Witness for C8 at the invalid JSON input consisting of a lone opening
brace. -/
theorem convertJson_invalid_json_error_doc_witness :
    jsonParse "\x7b" = none ∧
    convertJsonToZwString "\x7b" none =
      "# Error: Invalid JSON input.\n# " ++ jsonParseErrorMessage :=
  ⟨rfl, (convertJson_invalid_json_error_doc "\x7b" none rfl).1⟩
